import Mathlib

/-!
Verification of the battery-log processor (processor.py).

Shallow embedding conventions:
- a parsed CSV table is a list of rows, each row a list of rationals
  (pandas parses the numeric log files to int64/float64 columns; exact
  rational arithmetic stands in for the float arithmetic of the source);
- a DataFrame cell that may also be a raw string (the fault field fed to
  decode_faults) is modelled by the Cell type;
- filesystem effects of process_file (directory creation, moving the
  source file, writing the three outputs) are recorded as an ordered
  trace of Step values; Python exceptions become Except errors, and an
  exception aborts the run before any further effect, so the trace of a
  failed run is empty;
- Python semantics is reproduced by small helper functions: pyJoin is
  str.join, pySplit is str.split on a comma-space separator, pySort is
  the ascending sort of sorted(), pyInt is int() (truncation toward zero
  on numbers, digit parsing on strings), pyBit n i models the Python
  expression (n >> i) & 1 on arbitrary-precision integers, where >> is
  an arithmetic (floor) shift and & 1 is a non-negative remainder.
-/

/-- Python ", ".join: empty separator-joined string for [], otherwise the
elements interleaved with the separator. -/
def pyJoin (sep : String) : List String → String
  | [] => ""
  | [a] => a
  | a :: b :: t => a ++ sep ++ pyJoin sep (b :: t)

/-- Lexicographic strict comparison of char lists by code point, the order
Python uses to compare strings. -/
def charsLt : List Char → List Char → Bool
  | [], [] => false
  | [], _ :: _ => true
  | _ :: _, [] => false
  | a :: as, b :: bs => if a < b then true else if b < a then false else charsLt as bs

/-- Python string less-or-equal. -/
def pyStrLe (a b : String) : Bool := charsLt a.data b.data || a == b

/-- Insertion step of the ascending sort. -/
def insertStr (a : String) : List String → List String
  | [] => [a]
  | b :: t => if pyStrLe a b then a :: b :: t else b :: insertStr a t

/-- Python sorted() on a list of strings: ascending insertion sort. -/
def pySort : List String → List String
  | [] => []
  | a :: t => insertStr a (pySort t)

/-- Splitting a char list on the two-character separator ", ",
as Python str.split(", ") does. -/
def splitSepCS : List Char → List (List Char)
  | [] => [[]]
  | ',' :: ' ' :: rest => [] :: splitSepCS rest
  | c :: rest =>
    match splitSepCS rest with
    | [] => [[c]]
    | g :: gs => (c :: g) :: gs

/-- Python s.split(", "). -/
def pySplit (s : String) : List String := (splitSepCS s.data).map String.mk

/-- A maximal run of decimal digits read as a number; none if empty or
not all digits. -/
def parseDigits (cs : List Char) : Option Nat :=
  if cs.isEmpty then none
  else if cs.all Char.isDigit then
    some (cs.foldl (fun acc c => acc * 10 + (c.toNat - 48)) 0)
  else none

/-- Strip leading and trailing whitespace, as Python int() does before
parsing a string. -/
def pyStrip (cs : List Char) : List Char :=
  ((cs.dropWhile Char.isWhitespace).reverse.dropWhile Char.isWhitespace).reverse

/-- Python int(s) for a string s: optional sign followed by digits,
failure otherwise. -/
def pyParseInt (s : String) : Option Int :=
  match pyStrip s.data with
  | '-' :: rest => (parseDigits rest).map (fun n => -(n : Int))
  | '+' :: rest => (parseDigits rest).map (fun n => (n : Int))
  | cs => (parseDigits cs).map (fun n => (n : Int))

/-- A DataFrame cell as seen by decode_faults: a numeric value or a raw
string. -/
inductive Cell where
  | num (q : ℚ)
  | str (s : String)
deriving DecidableEq

deriving instance DecidableEq for Except

/-- Python int() on a number: truncation toward zero. -/
def pyTrunc (q : ℚ) : Int := Int.tdiv q.num (q.den : Int)

/-- Python int() on a cell: truncation for numbers, digit parsing for
strings, an exception (error) if the string does not parse. -/
def pyInt : Cell → Except Unit Int
  | .num q => .ok (pyTrunc q)
  | .str s =>
    match pyParseInt s with
    | some n => .ok n
    | none => .error ()

/-- Python (n >> i) & 1 on arbitrary-precision integers: >> is an
arithmetic shift, floor division by 2 ^ i, and & 1 is the non-negative
remainder mod 2. -/
def pyBit (n : Int) (i : Nat) : Int := (Int.fdiv n ((2 : Int) ^ i)).emod 2

/-- FAULT_FLAGS_V1 of processor.py. -/
def FAULT_FLAGS_V1 : List String :=
  ["batteryMinVoltage", "batteryMaxVoltage", "batteryAverageVoltage", "batteryVoltageDiff",
   "batteryTherm1Temp", "batteryTherm2Temp", "batteryTherm3Temp", "batteryCurrent"]

/-- FAULT_FLAGS_V2 of processor.py. -/
def FAULT_FLAGS_V2 : List String :=
  ["batteryMinVoltage", "batteryMaxVoltage", "batteryAverageVoltage", "batteryVoltageDiff",
   "batteryTherm1Temp", "batteryTherm2Temp", "batteryTherm3Temp", "batteryTherm4Temp",
   "batteryCurrent"]

/-- The list comprehension of decode_faults: the flags of the version
table whose bit of the fault value is set, in table order. -/
def active_flags (n : Int) (version : Nat) : List String :=
  ((if version = 1 then FAULT_FLAGS_V1 else FAULT_FLAGS_V2).enum.filter
    (fun p => pyBit n p.1 != 0)).map (fun p => p.2)

/-- The body of decode_faults after the int() conversion: the active
flags joined with comma-space; the Python idiom join(...) or "clear"
replaces an empty joined string by "clear". -/
def decode_int (n : Int) (version : Nat) : String :=
  if pyJoin ", " (active_flags n version) = "" then "clear"
  else pyJoin ", " (active_flags n version)

/-- decode_faults of processor.py: int() conversion of the fault value,
then bit-indexed selection from the version flag table. -/
def decode_faults (fault_value : Cell) (version : Nat) : Except Unit String :=
  (pyInt fault_value).map (fun n => decode_int n version)

/-- base_columns of process_file: Timestamp and Cell_1 .. Cell_24. -/
def base_columns : List String :=
  "Timestamp" :: (List.range 24).map (fun i => "Cell_" ++ toString (i + 1))

/-- therms_v1 of process_file. -/
def therms_v1 : List String := ["Therm_1", "Therm_2", "Therm_3"]

/-- therms_v2 of process_file. -/
def therms_v2 : List String :=
  ["Therm_1", "Therm_2", "Therm_3", "Therm_4", "MOSFET_Temp", "Bot_Bal_Temp", "Top_Bal_Temp"]

/-- The version-dependent named column list built by process_file. -/
def named_columns (version : Nat) : List String :=
  if version = 1 then base_columns ++ therms_v1 ++ ["Current", "Faults"]
  else base_columns ++ therms_v2 ++ ["Current", "Faults"]

/-- Version inference of process_file: version 1 for 30 or 31 columns,
version 2 otherwise. -/
def inferred_version (col_count : Nat) : Nat :=
  if col_count = 30 ∨ col_count = 31 then 1 else 2

/-- The full column-name list assigned to df.columns: named columns plus
Extra_i for each surplus column (range of a negative count is empty in
Python, as truncated subtraction is here). -/
def all_columns (col_count : Nat) : List String :=
  named_columns (inferred_version col_count)
  ++ (List.range (col_count - (named_columns (inferred_version col_count)).length)).map
      (fun i => "Extra_" ++ toString i)

/-- Names of the columns process_file appends, in creation order. -/
def computed_names : List String :=
  ["Total_Voltage", "Delta", "Highest_Cell", "Lowest_Cell", "Power",
   "Delta_Highlight", "Power_Highlight", "Fault_Text"]

/-- Maximum of a list of rationals, as pandas max over a non-empty axis. -/
def listMax : List ℚ → ℚ
  | [] => 0
  | [a] => a
  | a :: b :: t => max a (listMax (b :: t))

/-- Minimum of a list of rationals, as pandas min over a non-empty axis. -/
def listMin : List ℚ → ℚ
  | [] => 0
  | [a] => a
  | a :: b :: t => min a (listMin (b :: t))

/-- df.iloc[:, 1:25] /= 10000.0 applied to one row: positions 1 .. 24
divided in place, the rest untouched. -/
def convertRow (row : List ℚ) : List ℚ :=
  row.take 1 ++ ((row.drop 1).take 24).map (fun x => x / 10000) ++ row.drop 25

/-- One row of the derived table: the working row (after in-place cell
conversion) plus the computed fields of process_file. -/
structure DerivedRow where
  working : List ℚ
  total_voltage : ℚ
  delta : ℚ
  highest_cell : Nat
  lowest_cell : Nat
  power : ℚ
  delta_highlight : Option String
  power_highlight : Option String
  fault_text : String
deriving DecidableEq, Inhabited

/-- The per-row computations of process_file lines 41-62: cell slice is
positions 1 .. 24 of the working row; idxmax/idxmin of pandas return the
label of the first extremal column, and extracting the digits of Cell_k
yields the 1-based index k; Current and Faults are looked up by label.
The Faults cells of a parsed CSV are numeric, on which decode_faults
reduces to decode_int applied to the int()-truncated value. -/
def computeRow (cols : List String) (version : Nat) (w : List ℚ) : DerivedRow :=
  let cells := (w.drop 1).take 24
  let mx := listMax cells
  let mn := listMin cells
  let tv := cells.sum
  let cur := w.getD (cols.indexOf "Current") 0
  let pw := tv * cur
  let fv := w.getD (cols.indexOf "Faults") 0
  { working := w
    total_voltage := tv
    delta := mx - mn
    highest_cell := cells.indexOf mx + 1
    lowest_cell := cells.indexOf mn + 1
    power := pw
    delta_highlight := if mx - mn > 3 / 100 then some "HIGH" else none
    power_highlight := if pw > 14000 then some "HIGH" else none
    fault_text := decode_int (pyTrunc fv) version }

/-- Ascending insertion for natural numbers (pandas mode returns its
candidates sorted ascending). -/
def insertNat (a : Nat) : List Nat → List Nat
  | [] => [a]
  | b :: t => if a ≤ b then a :: b :: t else b :: insertNat a t

/-- Ascending sort for natural numbers. -/
def pySortNat : List Nat → List Nat
  | [] => []
  | a :: t => insertNat a (pySortNat t)

/-- pandas Series.mode().iloc[0]: the smallest value among those of
maximal multiplicity. -/
def pyMode (l : List Nat) : Nat :=
  let m := (l.map (fun a => l.count a)).foldr max 0
  (((pySortNat l.dedup)).find? (fun a => l.count a == m)).getD 0

/-- The flattened, deduplicated, sorted fault names of the summary:
sorted(set(fault for faults in column if faults != "clear"
for fault in faults.split(", "))). -/
def presentList (texts : List String) : List String :=
  pySort ((texts.filter (fun t => t != "clear")).flatMap pySplit).dedup

/-- The Present Faults summary field: the sorted deduplicated names
joined with comma-space. -/
def present_faults (texts : List String) : String :=
  pyJoin ", " (presentList texts)

/-- The one-row summary record of process_file lines 66-78. -/
structure Summary where
  max_temperature : ℚ
  max_current : ℚ
  max_power : ℚ
  max_delta : ℚ
  max_cell_voltage : ℚ
  min_cell_voltage : ℚ
  mode_highest_cell : Nat
  mode_lowest_cell : Nat
  fault_union : String
deriving DecidableEq, Inhabited

/-- The summary computation: column accesses are by label on the working
rows, cell extrema scan the 24 converted cell columns. -/
def summarize (cols : List String) (version : Nat) (table : List DerivedRow) : Summary :=
  let temps := if version = 1 then therms_v1 else therms_v2
  let colv := fun nm => table.map (fun dr => dr.working.getD (cols.indexOf nm) 0)
  { max_temperature := listMax (temps.map (fun nm => listMax (colv nm)))
    max_current := listMax (colv "Current")
    max_power := listMax (table.map (fun dr => dr.power))
    max_delta := listMax (table.map (fun dr => dr.delta))
    max_cell_voltage :=
      listMax ((List.range 24).map (fun j => listMax (table.map (fun dr => dr.working.getD (j + 1) 0))))
    min_cell_voltage :=
      listMin ((List.range 24).map (fun j => listMin (table.map (fun dr => dr.working.getD (j + 1) 0))))
    mode_highest_cell := pyMode (table.map (fun dr => dr.highest_cell))
    mode_lowest_cell := pyMode (table.map (fun dr => dr.lowest_cell))
    fault_union := present_faults (table.map (fun dr => dr.fault_text)) }

/-- The result record of a successful run: the derived table with its
column names and the summary. -/
structure Output where
  columns : List String
  table : List DerivedRow
  summary : Summary
deriving DecidableEq, Inhabited

/-- Filesystem effects of process_file, in source order: os.makedirs
(line 84), shutil.move of the input file (line 87), df.to_csv (line 90),
summary_df.to_csv (line 91), fig.write_html (line 118). -/
inductive Step where
  | makedirs
  | move
  | writeProcessed
  | writeSummary
  | writeHtml
deriving DecidableEq

/-- Exceptions process_file can raise before any filesystem effect:
pandas EmptyDataError from read_csv on a file with no rows, and the
pandas ValueError (length mismatch) from assigning df.columns a name
list whose length differs from the column count. -/
inductive PErr where
  | emptyDataError
  | lengthMismatchError
deriving DecidableEq

/-- process_file of processor.py. Reading an empty table raises
EmptyDataError; the column count is the width of the first row; a name
list shorter or longer than the column count raises the pandas length
mismatch ValueError at line 38, before any compute step; on success the
filesystem effects happen in source order: makedirs, move of the source
file, then the three output writes. -/
def process_file (rows : List (List ℚ)) : List Step × Except PErr Output :=
  match rows with
  | [] => ([], .error .emptyDataError)
  | r0 :: _ =>
    let col_count := r0.length
    let version := inferred_version col_count
    let cols := all_columns col_count
    if cols.length = col_count then
      let table := rows.map (fun r => computeRow cols version (convertRow r))
      ([.makedirs, .move, .writeProcessed, .writeSummary, .writeHtml],
        .ok { columns := cols ++ computed_names
              table := table
              summary := summarize cols version table })
    else ([], .error .lengthMismatchError)

/-- The output of a successful run (defaulted on a failed run). -/
def theOutput (p : List Step × Except PErr Output) : Output :=
  match p.2 with
  | .ok o => o
  | .error _ => default

/-- Number of columns of the derived table of a run. -/
def outColumnCount (p : List Step × Except PErr Output) : Nat :=
  (theOutput p).columns.length

/-- Sample cell block: 24 pairwise distinct raw cell readings. -/
def sampleCells : List ℚ := (List.range 24).map (fun i => (30000 + 100 * i : ℚ))

/-- A second cell block with different distinct values. -/
def sampleCellsB : List ℚ := (List.range 24).map (fun i => (31000 + 101 * i : ℚ))

/-- A 31-column version-1 row: timestamp, 24 cells, 3 thermistors,
current, faults, one surplus column. -/
def sampleRow31A : List ℚ := (0 : ℚ) :: sampleCells ++ [25, 26, 27, 50, 3, 7]

/-- A second 31-column row. -/
def sampleRow31B : List ℚ := (1 : ℚ) :: sampleCellsB ++ [25, 26, 27, 60, 5, 8]

/-- A two-row 31-column version-1 table with distinct cell values. -/
def sample31 : List (List ℚ) := [sampleRow31A, sampleRow31B]

/-- A 30-column version-1 row (no surplus column). -/
def sampleRow30 : List ℚ := (0 : ℚ) :: sampleCells ++ [25, 26, 27, 50, 3]

/-- A one-row 30-column version-1 table. -/
def sample30 : List (List ℚ) := [sampleRow30]

/-- A 33-column row: inferred version 2, narrower than the 34 named
version-2 columns. -/
def sampleRow33 : List ℚ := (0 : ℚ) :: sampleCells ++ [25, 26, 27, 28, 29, 50, 3, 7]

/-- A 30-column version-1 row with a chosen fault value. -/
def faultRow (f : ℚ) : List ℚ := (0 : ℚ) :: sampleCells ++ [25, 26, 27, 50, f]

/-- Three version-1 rows whose fault masks are 0, 1 and 2. -/
def sampleFaults : List (List ℚ) := [faultRow 0, faultRow 1, faultRow 2]

/-- The flag table of a version, following the wording of the spec. -/
def spec_flag_table (v : Nat) : List String :=
  if v = 1 then FAULT_FLAGS_V1 else FAULT_FLAGS_V2

/-- Modelled from the spec: the active flags of a non-negative fault
value are the table entries whose 0-based index is a set bit, kept in
table order. -/
def spec_active_flags (n v : Nat) : List String :=
  ((spec_flag_table v).enum.filter (fun p => n.testBit p.1)).map (fun p => p.2)

/-- Modelled from the spec: the decoded text is the comma-space join of
the active flags, or the literal "clear" when none is active. -/
def spec_decode (n v : Nat) : String :=
  if spec_active_flags n v = [] then "clear" else pyJoin ", " (spec_active_flags n v)

/-- The per-row conversion contract of the spec for one derived row: the
24 cell slots of the working row are the raw cells divided by 10000,
Total_Voltage is the sum of those converted cells, and Power is
Total_Voltage times the raw (unconverted) Current value of the row. -/
def row_conversion_spec (raw : List ℚ) (cur_idx : Nat) (dr : DerivedRow) : Prop :=
  (dr.working.drop 1).take 24 = ((raw.drop 1).take 24).map (fun x => x / 10000)
  ∧ dr.total_voltage = ((dr.working.drop 1).take 24).sum
  ∧ dr.power = dr.total_voltage * raw.getD cur_idx 0

/-- The extrema contract of the spec for one derived row over its cell
slice: Highest_Cell and Lowest_Cell are 1-based indices in 1 .. 24, the
indexed cell attains the row maximum respectively minimum, every cell
strictly before the index misses the extremum (first-occurrence
tie-break), and Delta is non-negative. -/
def extrema_spec (cells : List ℚ) (dr : DerivedRow) : Prop :=
  1 ≤ dr.highest_cell ∧ dr.highest_cell ≤ 24
  ∧ 1 ≤ dr.lowest_cell ∧ dr.lowest_cell ≤ 24
  ∧ cells.getD (dr.highest_cell - 1) 0 = listMax cells
  ∧ (∀ j, j < dr.highest_cell - 1 → cells.getD j 0 < listMax cells)
  ∧ cells.getD (dr.lowest_cell - 1) 0 = listMin cells
  ∧ (∀ j, j < dr.lowest_cell - 1 → listMin cells < cells.getD j 0)
  ∧ 0 ≤ dr.delta

theorem string_of_length_zero {s : String} (h : s.length = 0) : s = "" := by
  cases s with
  | mk data =>
    cases data with
    | nil => rfl
    | cons c cs => simp [String.length] at h

theorem pyJoin_ne_empty (sep : String) :
    ∀ (l : List String), l ≠ [] → (∀ x ∈ l, x ≠ "") → pyJoin sep l ≠ ""
  | [], h, _ => absurd rfl h
  | [a], _, h2 => by simpa [pyJoin] using h2 a (by simp)
  | a :: b :: t, _, h2 => by
    intro hcontra
    have ha : a ≠ "" := h2 a (by simp)
    have hlen : (pyJoin sep (a :: b :: t)).length
        = a.length + sep.length + (pyJoin sep (b :: t)).length := by
      simp [pyJoin, String.length_append]
    rw [hcontra] at hlen
    have hz : ("" : String).length = 0 := rfl
    exact ha (string_of_length_zero (by omega))

theorem snd_mem_of_mem_enum {α : Type} {l : List α} {p : Nat × α} (h : p ∈ l.enum) :
    p.2 ∈ l := by
  obtain ⟨i, a⟩ := p
  obtain ⟨hi, ha⟩ := List.mem_enum h
  exact ha ▸ List.getElem_mem hi

theorem pyBit_natCast (n i : Nat) : pyBit (n : Int) i = ((n / 2 ^ i % 2 : Nat) : Int) := by
  unfold pyBit
  have h1 : Int.fdiv (n : Int) ((2 : Int) ^ i) = ((n / 2 ^ i : Nat) : Int) := by
    rw [show ((2 : Int) ^ i) = ((2 ^ i : Nat) : Int) by push_cast; ring]
    exact (Int.ofNat_fdiv n (2 ^ i)).symm
  rw [h1]
  show ((n / 2 ^ i : Nat) : Int) % ((2 : Int)) = ((n / 2 ^ i % 2 : Nat) : Int)
  rw [show ((2 : Int)) = ((2 : Nat) : Int) by norm_cast]
  exact (Int.ofNat_emod _ 2).symm

theorem pyBit_bool (n i : Nat) : (pyBit (n : Int) i != 0) = n.testBit i := by
  rw [pyBit_natCast, Nat.testBit_to_div_mod]
  rcases Nat.mod_two_eq_zero_or_one (n / 2 ^ i) with h | h <;> rw [h] <;> rfl

theorem pyTrunc_natCast (n : Nat) : pyTrunc ((n : ℚ)) = (n : Int) := by
  unfold pyTrunc
  rw [Rat.num_natCast, Rat.den_natCast, Nat.cast_one]
  exact Int.tdiv_one _

theorem flag_table_ne_empty (v : Nat) :
    ∀ x ∈ (if v = 1 then FAULT_FLAGS_V1 else FAULT_FLAGS_V2), x ≠ "" := by
  split <;> decide

theorem active_flags_natCast (n v : Nat) : active_flags ((n : Nat) : Int) v = spec_active_flags n v := by
  unfold active_flags spec_active_flags spec_flag_table
  exact congrArg (List.map _) (List.filter_congr (fun p _ => pyBit_bool n p.1))

theorem mem_spec_active_flags_ne_empty (n v : Nat) :
    ∀ x ∈ spec_active_flags n v, x ≠ "" := by
  intro x hx
  simp only [spec_active_flags, spec_flag_table] at hx
  obtain ⟨p, hp, rfl⟩ := List.mem_map.mp hx
  exact flag_table_ne_empty v _ (snd_mem_of_mem_enum (List.mem_filter.mp hp).1)

theorem decode_int_natCast (n v : Nat) : decode_int ((n : Nat) : Int) v = spec_decode n v := by
  unfold decode_int spec_decode
  rw [active_flags_natCast]
  by_cases hnil : spec_active_flags n v = []
  · rw [hnil]
    rfl
  · have hne : pyJoin ", " (spec_active_flags n v) ≠ "" :=
      pyJoin_ne_empty _ _ hnil (mem_spec_active_flags_ne_empty n v)
    rw [if_neg hne, if_neg hnil]

/-- C1 counterexample: on a concrete well-formed two-row version-1 input
the run succeeds, yet the move of the source file is the second recorded
effect, strictly before the three output writes, and the last effect is
the HTML write, not the move. -/
theorem c1_counterexample :
    (process_file sample31).2.isOk = true
    ∧ (process_file sample31).1
      = [Step.makedirs, Step.move, Step.writeProcessed, Step.writeSummary, Step.writeHtml]
    ∧ (process_file sample31).1.getLast? ≠ some Step.move
    ∧ (process_file sample31).1.indexOf Step.move
      < (process_file sample31).1.indexOf Step.writeProcessed := by
  refine ⟨by decide, by decide, by decide, by decide⟩

/-- C1 amended: a run either fails before any filesystem effect (so the
source file is not moved), or succeeds with the fixed effect order
makedirs, move, write processed CSV, write summary CSV, write HTML: the
move happens only after the derived table and summary are computed
without error, but before the three output files are written, and is not
the last step. -/
theorem c1_amended (rows : List (List ℚ)) :
    ((process_file rows).1 = [] ∧ (process_file rows).2.isOk = false)
    ∨ ((process_file rows).1
        = [Step.makedirs, Step.move, Step.writeProcessed, Step.writeSummary, Step.writeHtml]
      ∧ (process_file rows).2.isOk = true) := by
  cases rows with
  | nil => left; exact ⟨rfl, rfl⟩
  | cons r0 rest =>
    by_cases h : (all_columns r0.length).length = r0.length
    · right
      refine ⟨?_, ?_⟩ <;> (simp only [process_file, if_pos h]; try trivial)
    · left
      refine ⟨?_, ?_⟩ <;> (simp only [process_file, if_neg h]; try trivial)

/-- C2 counterexample: a 30-column table is inferred as version 1, whose
named column list the claim says has 31 names; the claim then requires a
SchemaError and no move, but the run succeeds (the version-1 named list
has 30 names, not 31) and the source file is moved. -/
theorem c2_counterexample :
    sampleRow30.length = 30
    ∧ (30 : Nat) < 31
    ∧ (process_file sample30).2.isOk = true
    ∧ Step.move ∈ (process_file sample30).1 := by
  refine ⟨by decide, by decide, by decide, by decide⟩

/-- C2 amended: the named column list has 30 names for version 1 and 34
for version 2; whenever the column count is strictly below the named
list size of the inferred version (possible only for version 2, since 30
and 31 column tables are version 1), the df.columns assignment raises
the pandas length mismatch error before any compute step, no filesystem
effect is recorded and the source file is not moved. -/
theorem c2_amended (r0 : List ℚ) (rest : List (List ℚ))
    (hlt : r0.length < (named_columns (inferred_version r0.length)).length) :
    process_file (r0 :: rest) = ([], Except.error PErr.lengthMismatchError) := by
  have hlen : (all_columns r0.length).length
      = (named_columns (inferred_version r0.length)).length := by
    simp only [all_columns, List.length_append, List.length_map, List.length_range]
    omega
  have hne : ¬ (all_columns r0.length).length = r0.length := by omega
  simp only [process_file, if_neg hne]

/-- C2 witness: the amended theorem applied to a concrete 33-column row,
narrower than the 34 named version-2 columns. -/
theorem c2_witness :
    sampleRow33.length < (named_columns (inferred_version sampleRow33.length)).length
    ∧ process_file [sampleRow33] = ([], Except.error PErr.lengthMismatchError) :=
  ⟨by decide, c2_amended sampleRow33 [] (by decide)⟩

/-- C3: a table with zero data rows makes process_file fail with the
empty-input error raised by pandas read_csv (EmptyDataError), before any
aggregate is computed and before any filesystem effect. -/
theorem c3_empty_input :
    process_file ([] : List (List ℚ)) = ([], Except.error PErr.emptyDataError) := rfl

/-- C5 counterexample: on a concrete two-row 31-column version-1 table
with distinct cell values the run succeeds and the derived table has 39
columns, not the 31 + 9 = 40 the claim states. -/
theorem c5_counterexample :
    (sample31.headD []).length = 31
    ∧ (process_file sample31).2.isOk = true
    ∧ outColumnCount (process_file sample31) = 39
    ∧ (31 : Nat) + 9 ≠ 39 := by
  refine ⟨by decide, by decide, by decide, by decide⟩

/-- C5 amended: every version-1 input whose rows have 31 raw columns
yields a successful run whose derived table has exactly 31 + 8 columns:
the 31 original columns (30 named plus Extra_0) plus the 8 computed
columns Total_Voltage, Delta, Highest_Cell, Lowest_Cell, Power,
Delta_Highlight, Power_Highlight and Fault_Text. -/
theorem c5_amended (r0 : List ℚ) (rest : List (List ℚ)) (h31 : r0.length = 31) :
    (process_file (r0 :: rest)).2.isOk = true
    ∧ outColumnCount (process_file (r0 :: rest)) = 31 + 8 := by
  have hv : inferred_version r0.length = 1 := by
    simp [inferred_version, h31]
  have hnamed : (named_columns (inferred_version r0.length)).length = 30 := by
    rw [hv]; decide
  have hlen : (all_columns r0.length).length = r0.length := by
    simp only [all_columns, List.length_append, List.length_map, List.length_range]
    omega
  constructor
  · simp only [process_file, if_pos hlen]
    rfl
  · simp only [outColumnCount, theOutput, process_file, if_pos hlen]
    simp only [List.length_append, hlen, h31]
    decide

/-- C5 witness: the amended theorem applied to the concrete two-row
31-column table. -/
theorem c5_witness :
    sampleRow31A.length = 31
    ∧ (process_file (sampleRow31A :: [sampleRow31B])).2.isOk = true
    ∧ outColumnCount (process_file (sampleRow31A :: [sampleRow31B])) = 31 + 8 :=
  ⟨by decide, (c5_amended sampleRow31A [sampleRow31B] (by decide)).1,
    (c5_amended sampleRow31A [sampleRow31B] (by decide)).2⟩

/-- C10: decode_faults enforces no non-negativity precondition: every
numeric fault value decodes without error, and decode_faults(-1, 1)
returns all 8 version-1 flag names joined in table order, because the
arithmetic shift of -1 keeps every bit set. -/
theorem c10_negative_faults :
    (∀ (q : ℚ) (v : Nat), (decode_faults (Cell.num q) v).isOk = true)
    ∧ decode_faults (Cell.num (-1)) 1
      = Except.ok ("batteryMinVoltage, batteryMaxVoltage, batteryAverageVoltage, "
        ++ "batteryVoltageDiff, batteryTherm1Temp, batteryTherm2Temp, "
        ++ "batteryTherm3Temp, batteryCurrent") := by
  refine ⟨fun q v => rfl, by decide⟩

/-- C4 counterexample: the numeric fault value -3 is not parseable as a
non-negative integer, yet decode_faults does not fail: int() accepts it
and the arithmetic shift decodes the sign-extended bits, so the claimed
decode failure never happens. -/
theorem c4_counterexample :
    pyInt (Cell.num (-3)) = Except.ok (-3)
    ∧ (decode_faults (Cell.num (-3)) 1).isOk = true
    ∧ decode_faults (Cell.num (-3)) 1
      = Except.ok ("batteryMinVoltage, batteryAverageVoltage, batteryVoltageDiff, "
        ++ "batteryTherm1Temp, batteryTherm2Temp, batteryTherm3Temp, batteryCurrent") := by
  refine ⟨by decide, by decide, by decide⟩

/-- C4 amended: decode_faults propagates a failure exactly when int()
fails, which happens only for string fault values that do not parse as
an integer; every numeric fault value — negative or fractional included
— is silently coerced by int() truncation and decoded without error. -/
theorem c4_amended (v : Nat) :
    (∀ s : String, pyInt (Cell.str s) = Except.error ()
      → decode_faults (Cell.str s) v = Except.error ())
    ∧ (∀ q : ℚ, decode_faults (Cell.num q) v = Except.ok (decode_int (pyTrunc q) v)) := by
  constructor
  · intro s hs
    unfold decode_faults
    rw [hs]
    rfl
  · intro q
    rfl

/-- C4 witness: the amended theorem applied to the unparseable string
"abc" and to the numeric value -3. -/
theorem c4_witness :
    pyInt (Cell.str "abc") = Except.error ()
    ∧ decode_faults (Cell.str "abc") 1 = Except.error ()
    ∧ decode_faults (Cell.num (-3)) 1 = Except.ok (decode_int (pyTrunc (-3)) 1) :=
  ⟨by decide, (c4_amended 1).1 "abc" (by decide), (c4_amended 1).2 (-3)⟩

/-- C6: for every non-negative fault value and any version the decoded
text is exactly the comma-space join, in table order, of the flags whose
bit is set, with "clear" when no bit selects a flag; and the three
concrete decodes of the claim hold. -/
theorem c6_decoder_spec :
    (∀ (n v : Nat), decode_faults (Cell.num (n : ℚ)) v = Except.ok (spec_decode n v))
    ∧ decode_faults (Cell.num 0) 1 = Except.ok "clear"
    ∧ decode_faults (Cell.num 0) 2 = Except.ok "clear"
    ∧ decode_faults (Cell.num 1) 1 = Except.ok "batteryMinVoltage"
    ∧ decode_faults (Cell.num 255) 1
      = Except.ok ("batteryMinVoltage, batteryMaxVoltage, batteryAverageVoltage, "
        ++ "batteryVoltageDiff, batteryTherm1Temp, batteryTherm2Temp, "
        ++ "batteryTherm3Temp, batteryCurrent") := by
  refine ⟨fun n v => ?_, by decide, by decide, by decide, by decide⟩
  have h : decode_faults (Cell.num (n : ℚ)) v
      = Except.ok (decode_int (pyTrunc ((n : ℚ))) v) := rfl
  rw [h, pyTrunc_natCast, decode_int_natCast]

theorem insertStr_perm (a : String) : ∀ (l : List String), (insertStr a l).Perm (a :: l)
  | [] => List.Perm.refl _
  | b :: t => by
    unfold insertStr
    by_cases h : pyStrLe a b
    · rw [if_pos h]
    · rw [if_neg h]
      exact ((insertStr_perm a t).cons b).trans (List.Perm.swap a b t)

theorem pySort_perm : ∀ (l : List String), (pySort l).Perm l
  | [] => List.Perm.refl _
  | a :: t => (insertStr_perm a (pySort t)).trans ((pySort_perm t).cons a)

theorem mem_pySort {a : String} {l : List String} : a ∈ pySort l ↔ a ∈ l :=
  (pySort_perm l).mem_iff

theorem charsLt_total : ∀ (as bs : List Char),
    charsLt as bs = true ∨ as = bs ∨ charsLt bs as = true
  | [], [] => Or.inr (Or.inl rfl)
  | [], _ :: _ => Or.inl rfl
  | _ :: _, [] => Or.inr (Or.inr rfl)
  | a :: as, b :: bs => by
    rcases lt_trichotomy a b with h | h | h
    · left
      simp [charsLt, h]
    · subst h
      rcases charsLt_total as bs with h2 | h2 | h2
      · left
        simp [charsLt, h2]
      · rw [h2]
        exact Or.inr (Or.inl rfl)
      · right
        right
        simp [charsLt, h2]
    · right
      right
      simp [charsLt, h]

theorem pyStrLe_total (a b : String) : pyStrLe a b = true ∨ pyStrLe b a = true := by
  rcases charsLt_total a.data b.data with h | h | h
  · left
    simp [pyStrLe, h]
  · left
    have hab : a = b := String.ext h
    simp [pyStrLe, hab]
  · right
    simp [pyStrLe, h]

theorem insertStr_head (a : String) : ∀ (l : List String),
    (insertStr a l).head? = some a ∨ (insertStr a l).head? = l.head?
  | [] => Or.inl rfl
  | b :: t => by
    unfold insertStr
    by_cases hab : pyStrLe a b
    · rw [if_pos hab]
      exact Or.inl rfl
    · rw [if_neg hab]
      exact Or.inr rfl

theorem chain_insertStr (a : String) : ∀ (l : List String),
    l.Chain' (fun x y => pyStrLe x y = true)
    → (insertStr a l).Chain' (fun x y => pyStrLe x y = true)
  | [], _ => List.chain'_singleton a
  | b :: t, h => by
    unfold insertStr
    by_cases hab : pyStrLe a b
    · rw [if_pos hab]
      exact List.chain'_cons.mpr ⟨hab, h⟩
    · rw [if_neg hab]
      have hba : pyStrLe b a = true := by
        rcases pyStrLe_total a b with h1 | h1
        · exact absurd h1 (by simpa using hab)
        · exact h1
      have ih := chain_insertStr a t h.tail
      apply List.chain'_cons'.mpr
      refine ⟨?_, ih⟩
      intro y hy
      rcases insertStr_head a t with hh | hh
      · rw [hh] at hy
        cases hy
        exact hba
      · rw [hh] at hy
        exact (List.chain'_cons'.mp h).1 y hy

theorem pySort_chain : ∀ (l : List String),
    (pySort l).Chain' (fun x y => pyStrLe x y = true)
  | [] => List.chain'_nil
  | a :: t => chain_insertStr a (pySort t) (pySort_chain t)

/-- C9: membership in the Present Faults list is exactly occurrence of
the name in the split of some non-clear Fault_Text; the list is sorted
ascending in the Python string order and duplicate-free; when every
Fault_Text is "clear" the field is the empty string; and the concrete
3-row version-1 file with fault masks 0, 1, 2 summarizes to
"batteryMaxVoltage, batteryMinVoltage". -/
theorem c9_present_faults :
    (∀ (texts : List String) (a : String),
      a ∈ presentList texts ↔ ∃ t, t ∈ texts ∧ t ≠ "clear" ∧ a ∈ pySplit t)
    ∧ (∀ texts : List String,
      (presentList texts).Chain' (fun x y => pyStrLe x y = true) ∧ (presentList texts).Nodup)
    ∧ (∀ texts : List String, (∀ t ∈ texts, t = "clear") → present_faults texts = "")
    ∧ (theOutput (process_file sampleFaults)).summary.fault_union
      = "batteryMaxVoltage, batteryMinVoltage" := by
  refine ⟨?_, ?_, ?_, by decide⟩
  · intro texts a
    unfold presentList
    rw [mem_pySort, List.mem_dedup, List.mem_flatMap]
    constructor
    · rintro ⟨t, ht, hat⟩
      have hm := List.mem_filter.mp ht
      exact ⟨t, hm.1, by simpa using hm.2, hat⟩
    · rintro ⟨t, ht, hne, hat⟩
      exact ⟨t, List.mem_filter.mpr ⟨ht, by simpa using hne⟩, hat⟩
  · intro texts
    exact ⟨pySort_chain _, (pySort_perm _).nodup_iff.mpr (List.nodup_dedup _)⟩
  · intro texts h
    have hfil : texts.filter (fun t => t != "clear") = [] := by
      rw [List.filter_eq_nil_iff]
      intro t ht
      simp [h t ht]
    unfold present_faults presentList
    rw [hfil]
    rfl

/-- C9 witness: the all-clear case of the theorem applied to a concrete
one-row fault column. -/
theorem c9_witness : present_faults ["clear"] = "" :=
  c9_present_faults.2.2.1 ["clear"] (by decide)

theorem computeRow_working (cols : List String) (version : Nat) (w : List ℚ) :
    (computeRow cols version w).working = w := rfl

theorem computeRow_total (cols : List String) (version : Nat) (w : List ℚ) :
    (computeRow cols version w).total_voltage = ((w.drop 1).take 24).sum := rfl

theorem computeRow_delta (cols : List String) (version : Nat) (w : List ℚ) :
    (computeRow cols version w).delta
      = listMax ((w.drop 1).take 24) - listMin ((w.drop 1).take 24) := rfl

theorem computeRow_highest (cols : List String) (version : Nat) (w : List ℚ) :
    (computeRow cols version w).highest_cell
      = ((w.drop 1).take 24).indexOf (listMax ((w.drop 1).take 24)) + 1 := rfl

theorem computeRow_lowest (cols : List String) (version : Nat) (w : List ℚ) :
    (computeRow cols version w).lowest_cell
      = ((w.drop 1).take 24).indexOf (listMin ((w.drop 1).take 24)) + 1 := rfl

theorem computeRow_power (cols : List String) (version : Nat) (w : List ℚ) :
    (computeRow cols version w).power
      = ((w.drop 1).take 24).sum * w.getD (cols.indexOf "Current") 0 := rfl

theorem listMax_mem : ∀ (l : List ℚ), l ≠ [] → listMax l ∈ l
  | [], h => absurd rfl h
  | [a], _ => by
    show listMax [a] ∈ [a]
    exact List.mem_singleton.mpr rfl
  | a :: b :: t, _ => by
    show max a (listMax (b :: t)) ∈ a :: b :: t
    rcases le_total a (listMax (b :: t)) with h | h
    · rw [max_eq_right h]
      exact List.mem_cons_of_mem a (listMax_mem (b :: t) (by simp))
    · rw [max_eq_left h]
      exact List.mem_cons_self a (b :: t)

theorem le_listMax : ∀ (l : List ℚ), ∀ x ∈ l, x ≤ listMax l
  | [], x, hx => absurd hx (List.not_mem_nil x)
  | [a], x, hx => by
    rw [List.mem_singleton.mp hx]
    exact le_rfl
  | a :: b :: t, x, hx => by
    show x ≤ max a (listMax (b :: t))
    rcases List.mem_cons.mp hx with rfl | hmem
    · exact le_max_left _ _
    · exact le_trans (le_listMax (b :: t) x hmem) (le_max_right _ _)

theorem listMin_mem : ∀ (l : List ℚ), l ≠ [] → listMin l ∈ l
  | [], h => absurd rfl h
  | [a], _ => by
    show listMin [a] ∈ [a]
    exact List.mem_singleton.mpr rfl
  | a :: b :: t, _ => by
    show min a (listMin (b :: t)) ∈ a :: b :: t
    rcases le_total a (listMin (b :: t)) with h | h
    · rw [min_eq_left h]
      exact List.mem_cons_self a (b :: t)
    · rw [min_eq_right h]
      exact List.mem_cons_of_mem a (listMin_mem (b :: t) (by simp))

theorem listMin_le : ∀ (l : List ℚ), ∀ x ∈ l, listMin l ≤ x
  | [], x, hx => absurd hx (List.not_mem_nil x)
  | [a], x, hx => by
    rw [List.mem_singleton.mp hx]
    exact le_rfl
  | a :: b :: t, x, hx => by
    show min a (listMin (b :: t)) ≤ x
    rcases List.mem_cons.mp hx with rfl | hmem
    · exact min_le_left _ _
    · exact le_trans (min_le_right _ _) (listMin_le (b :: t) x hmem)

theorem getD_indexOf {a d : ℚ} {l : List ℚ} (h : a ∈ l) : l.getD (l.indexOf a) d = a := by
  have hlt : l.indexOf a < l.length := List.indexOf_lt_length.mpr h
  rw [List.getD_eq_getElem _ _ hlt, ← List.get_eq_getElem l ⟨l.indexOf a, hlt⟩]
  exact List.indexOf_get hlt

theorem getD_ne_of_lt_indexOf {a d : ℚ} : ∀ (l : List ℚ) (j : Nat),
    j < l.indexOf a → l.getD j d ≠ a
  | [], j, h => by simp [List.indexOf] at h
  | b :: t, j, h => by
    rw [List.indexOf_cons] at h
    cases hba : (b == a) with
    | true =>
      rw [hba] at h
      simp at h
    | false =>
      rw [hba] at h
      simp only [cond_false] at h
      cases j with
      | zero =>
        show b ≠ a
        simpa using hba
      | succ j2 =>
        show t.getD j2 d ≠ a
        exact getD_ne_of_lt_indexOf t j2 (by omega)

/-- C8: in every computed derived row whose working row has the full 24
cell slots, Highest_Cell and Lowest_Cell are 1-based indices in 1 .. 24
pointing at the first occurrence of the row maximum respectively
minimum, and Delta is non-negative. -/
theorem c8_extrema (cols : List String) (version : Nat) (w : List ℚ)
    (h : 25 ≤ w.length) :
    extrema_spec ((w.drop 1).take 24) (computeRow cols version w) := by
  have hlen : ((w.drop 1).take 24).length = 24 := by
    simp only [List.length_take, List.length_drop]
    omega
  have hne : (w.drop 1).take 24 ≠ [] := by
    intro hnil
    rw [hnil] at hlen
    simp at hlen
  have hmx := listMax_mem _ hne
  have hmn := listMin_mem _ hne
  have hmxlt : ((w.drop 1).take 24).indexOf (listMax ((w.drop 1).take 24))
      < ((w.drop 1).take 24).length := List.indexOf_lt_length.mpr hmx
  have hmnlt : ((w.drop 1).take 24).indexOf (listMin ((w.drop 1).take 24))
      < ((w.drop 1).take 24).length := List.indexOf_lt_length.mpr hmn
  refine ⟨?_, ?_, ?_, ?_, ?_, ?_, ?_, ?_, ?_⟩
  · rw [computeRow_highest]
    omega
  · rw [computeRow_highest]
    omega
  · rw [computeRow_lowest]
    omega
  · rw [computeRow_lowest]
    omega
  · rw [computeRow_highest]
    simpa using getD_indexOf hmx
  · rw [computeRow_highest]
    intro j hj
    simp only [Nat.add_sub_cancel] at hj
    have hjlt : j < ((w.drop 1).take 24).length := by omega
    have hle := le_listMax _ _ (List.getD_eq_getElem _ (0 : ℚ) hjlt ▸ List.getElem_mem hjlt)
    exact lt_of_le_of_ne hle (getD_ne_of_lt_indexOf _ j hj)
  · rw [computeRow_lowest]
    simpa using getD_indexOf hmn
  · rw [computeRow_lowest]
    intro j hj
    simp only [Nat.add_sub_cancel] at hj
    have hjlt : j < ((w.drop 1).take 24).length := by omega
    have hle := listMin_le _ _ (List.getD_eq_getElem _ (0 : ℚ) hjlt ▸ List.getElem_mem hjlt)
    exact lt_of_le_of_ne hle (fun hcontra => getD_ne_of_lt_indexOf _ j hj hcontra.symm)
  · rw [computeRow_delta]
    exact sub_nonneg.mpr (le_listMax _ _ (listMin_mem _ hne))

/-- C8 witness: the theorem applied to a concrete 31-column row, reading
off the scalar conjuncts. -/
theorem c8_witness :
    25 ≤ sampleRow31A.length
    ∧ 1 ≤ (computeRow (all_columns 31) 1 sampleRow31A).highest_cell
    ∧ (computeRow (all_columns 31) 1 sampleRow31A).highest_cell ≤ 24
    ∧ 0 ≤ (computeRow (all_columns 31) 1 sampleRow31A).delta := by
  have H := c8_extrema (all_columns 31) 1 sampleRow31A (by decide)
  exact ⟨by decide, H.1, H.2.1, H.2.2.2.2.2.2.2.2⟩

theorem process_file_ok {r0 : List ℚ} {rest : List (List ℚ)}
    (hlen : (all_columns r0.length).length = r0.length) :
    process_file (r0 :: rest)
      = ([Step.makedirs, Step.move, Step.writeProcessed, Step.writeSummary, Step.writeHtml],
        Except.ok
          { columns := all_columns r0.length ++ computed_names
            table := (r0 :: rest).map
              (fun r => computeRow (all_columns r0.length) (inferred_version r0.length) (convertRow r))
            summary := summarize (all_columns r0.length) (inferred_version r0.length)
              ((r0 :: rest).map
                (fun r => computeRow (all_columns r0.length) (inferred_version r0.length)
                  (convertRow r))) }) := by
  simp only [process_file, if_pos hlen]

theorem indexOf_append_left {a : String} : ∀ (l1 l2 : List String), a ∈ l1
    → (l1 ++ l2).indexOf a = l1.indexOf a
  | [], _, h => absurd h (List.not_mem_nil a)
  | b :: t, l2, h => by
    rw [List.cons_append, List.indexOf_cons, List.indexOf_cons]
    cases hba : (b == a) with
    | true => rfl
    | false =>
      have hmem : a ∈ t := by
        rcases List.mem_cons.mp h with rfl | hm
        · simp at hba
        · exact hm
      simp only [cond_false]
      rw [indexOf_append_left t l2 hmem]

theorem current_mem_named (v : Nat) : "Current" ∈ named_columns v := by
  unfold named_columns
  split
  · decide
  · decide

theorem named_current_cases (cc : Nat) :
    ((named_columns (inferred_version cc)).indexOf "Current" = 28
      ∧ (named_columns (inferred_version cc)).length = 30)
    ∨ ((named_columns (inferred_version cc)).indexOf "Current" = 32
      ∧ (named_columns (inferred_version cc)).length = 34) := by
  unfold inferred_version
  split
  · left
    constructor
    · decide
    · decide
  · right
    constructor
    · decide
    · decide

theorem all_columns_indexOf_current (cc : Nat) :
    (all_columns cc).indexOf "Current"
      = (named_columns (inferred_version cc)).indexOf "Current" := by
  unfold all_columns
  exact indexOf_append_left _ _ (current_mem_named _)

theorem convertRow_length (row : List ℚ) : (convertRow row).length = row.length := by
  unfold convertRow
  simp only [List.length_append, List.length_take, List.length_drop, List.length_map]
  omega

theorem convertRow_cells (row : List ℚ) (h : 25 ≤ row.length) :
    ((convertRow row).drop 1).take 24 = ((row.drop 1).take 24).map (fun x => x / 10000) := by
  unfold convertRow
  rw [List.append_assoc]
  rw [List.drop_left' (show (row.take 1).length = 1 by
    simp only [List.length_take]
    omega)]
  rw [List.take_left' (show (((row.drop 1).take 24).map (fun x => x / 10000)).length = 24 by
    simp only [List.length_map, List.length_take, List.length_drop]
    omega)]

theorem convertRow_getD_high {row : List ℚ} {idx : Nat} (h25 : 25 ≤ idx) :
    (convertRow row).getD idx 0 = row.getD idx 0 := by
  by_cases hlen : 25 ≤ row.length
  · have h1 : (row.take 1).length = 1 := by
      simp only [List.length_take]
      omega
    have h2 : (((row.drop 1).take 24).map (fun x => (x : ℚ) / 10000)).length = 24 := by
      simp only [List.length_map, List.length_take, List.length_drop]
      omega
    unfold convertRow
    rw [List.getD_eq_getElem?_getD, List.getD_eq_getElem?_getD]
    rw [List.getElem?_append_right (by
      simp only [List.length_append, h1, h2]
      omega)]
    rw [List.length_append, h1, h2, List.getElem?_drop]
    congr 2
    omega
  · rw [List.getD_eq_default _ _ (by rw [convertRow_length]; omega),
      List.getD_eq_default _ _ (by omega)]

/-- C7: in every successful run on a rectangular table, the derived
table has one row per input row, and each derived row satisfies the
conversion contract: its 24 cell slots are the raw cells divided by
10000, Total_Voltage is the sum of the converted cells, and Power is
Total_Voltage times the raw, unconverted Current value of the same
input row. -/
theorem c7_conversion (rows : List (List ℚ))
    (hok : (process_file rows).2.isOk = true)
    (hrect : ∀ r ∈ rows, r.length = (rows.headD []).length)
    (i : Nat) (hi : i < rows.length) :
    (theOutput (process_file rows)).table.length = rows.length
    ∧ row_conversion_spec (rows.getD i [])
        ((theOutput (process_file rows)).columns.indexOf "Current")
        ((theOutput (process_file rows)).table.getD i default) := by
  cases rows with
  | nil => exact absurd hok (by simp [process_file, Except.isOk, Except.toBool])
  | cons r0 rest =>
    by_cases hlen : (all_columns r0.length).length = r0.length
    case neg =>
      exact absurd hok (by simp [process_file, if_neg hlen, Except.isOk, Except.toBool])
    case pos =>
    rw [process_file_ok hlen]
    simp only [theOutput]
    have hmap : ∀ j : Nat, j < (r0 :: rest).length →
        ((r0 :: rest).map (fun r => computeRow (all_columns r0.length)
            (inferred_version r0.length) (convertRow r))).getD j default
          = computeRow (all_columns r0.length) (inferred_version r0.length)
            (convertRow ((r0 :: rest).getD j [])) := by
      intro j hj
      have hj2 : j < ((r0 :: rest).map (fun r => computeRow (all_columns r0.length)
          (inferred_version r0.length) (convertRow r))).length := by
        simpa using hj
      rw [List.getD_eq_getElem _ _ hj2, List.getElem_map, List.getD_eq_getElem _ _ hj]
    constructor
    · simp
    · have hcidx : (all_columns r0.length ++ computed_names).indexOf "Current"
          = (named_columns (inferred_version r0.length)).indexOf "Current" := by
        rw [indexOf_append_left _ _ (by
          unfold all_columns
          exact List.mem_append_left _ (current_mem_named _))]
        exact all_columns_indexOf_current r0.length
      have hraw_mem : (r0 :: rest).getD i [] ∈ (r0 :: rest) := by
        rw [List.getD_eq_getElem _ _ hi]
        exact List.getElem_mem hi
      have hraw_len : ((r0 :: rest).getD i []).length = r0.length :=
        hrect _ hraw_mem
      have hcc : (named_columns (inferred_version r0.length)).length ≤ r0.length := by
        have := congrArg List.length (rfl : all_columns r0.length = all_columns r0.length)
        have h2 : (all_columns r0.length).length
            = (named_columns (inferred_version r0.length)).length
              + (r0.length - (named_columns (inferred_version r0.length)).length) := by
          unfold all_columns
          simp [List.length_append, List.length_map, List.length_range]
        omega
      have h25 : 25 ≤ ((r0 :: rest).getD i []).length := by
        rcases named_current_cases r0.length with ⟨_, hn⟩ | ⟨_, hn⟩ <;> omega
      rw [hmap i hi]
      refine ⟨?_, ?_, ?_⟩
      · rw [computeRow_working]
        exact convertRow_cells _ h25
      · rw [computeRow_total, computeRow_working]
      · rw [computeRow_power, computeRow_total, hcidx]
        have hidx25 : 25 ≤ (named_columns (inferred_version r0.length)).indexOf "Current" := by
          rcases named_current_cases r0.length with ⟨hn, _⟩ | ⟨hn, _⟩ <;> omega
        rw [all_columns_indexOf_current, convertRow_getD_high hidx25]

/-- C7 witness: the theorem applied to the concrete two-row 31-column
table at row index 0. -/
theorem c7_witness :
    (process_file sample31).2.isOk = true
    ∧ (theOutput (process_file sample31)).table.length = sample31.length
    ∧ row_conversion_spec (sample31.getD 0 [])
        ((theOutput (process_file sample31)).columns.indexOf "Current")
        ((theOutput (process_file sample31)).table.getD 0 default) := by
  have H := c7_conversion sample31 (by decide) (by decide) 0 (by decide)
  exact ⟨by decide, H.1, H.2⟩
